import Mathlib

/-!
Verification of the Skeleton Inverse-Kinematics Solver
(`lib/Backend/DuoRecord/skeleton_ik_solver.py`).

Matrices are 4×4 over ℚ (the source works on float32 tensors; we use exact
rational arithmetic for the algebraic identities).  Tensor stacks are Lean
lists; out-of-range indexing is modelled with `List.getD` (the claims only
concern in-range behaviour).  External routines that are not part of the
repository source (torch's `exp`, `norm`, the L-BFGS optimizer step, and
`euler_angle_to_matrix` / `mls_smooth` from `utils3d`) are abstracted as
function parameters, collected in `ExternalFns`.
-/

open Matrix

abbrev Mat4 := Matrix (Fin 4) (Fin 4) ℚ

abbrev Vec3 := Fin 3 → ℚ

/-- The loop body of `eval_matrix_world_py`, unrolled over the first `n`
bones: `local_mat = matrix_bones[i] @ matrix_basis[i]`, and
`world[i] = local_mat` when `parents[i] < 0`, else
`world[parents[i]] @ local_mat`. -/
def emwList (parents : List Int) (matrixBones matrixBasis : List Mat4) : Nat → List Mat4
  | 0 => []
  | n + 1 =>
    let w := emwList parents matrixBones matrixBasis n
    let localMat := matrixBones.getD n 1 * matrixBasis.getD n 1
    w ++ [if parents.getD n (-1) < 0 then localMat
          else w.getD (parents.getD n (-1)).toNat 1 * localMat]

/-- `eval_matrix_world_py(parents, matrix_bones, matrix_basis)`: iterate the
loop over `i in range(len(matrix_bones))` and stack the world matrices. -/
def eval_matrix_world_py (parents : List Int) (matrixBones matrixBasis : List Mat4) : List Mat4 :=
  emwList parents matrixBones matrixBasis matrixBones.length

theorem emwList_length (parents : List Int) (mb ms : List Mat4) (n : Nat) :
    (emwList parents mb ms n).length = n := by
  induction n with
  | zero => rfl
  | succ n ih => simp [emwList, ih]

theorem emwList_getD_mono (parents : List Int) (mb ms : List Mat4) {m n j : Nat}
    (hmn : m ≤ n) (hj : j < m) :
    (emwList parents mb ms n).getD j 1 = (emwList parents mb ms m).getD j 1 := by
  induction n with
  | zero => omega
  | succ n ih =>
    rcases Nat.lt_or_ge m (n + 1) with h | h
    · have hmn' : m ≤ n := by omega
      rw [← ih hmn']
      show (emwList parents mb ms n ++ _).getD j 1 = _
      rw [List.getD_append _ _ _ _ (by rw [emwList_length]; omega)]
    · have : m = n + 1 := by omega
      subst this; rfl

theorem emwList_getD_last (parents : List Int) (mb ms : List Mat4) (n : Nat) :
    (emwList parents mb ms (n + 1)).getD n 1 =
      (if parents.getD n (-1) < 0 then mb.getD n 1 * ms.getD n 1
       else (emwList parents mb ms n).getD (parents.getD n (-1)).toNat 1 *
         (mb.getD n 1 * ms.getD n 1)) := by
  show (emwList parents mb ms n ++ [_]).getD n 1 = _
  rw [List.getD_append_right _ _ _ _ (by rw [emwList_length])]
  rw [emwList_length]
  simp

/-- C1: for a hierarchy in topological order (each bone's parent index
strictly less than its own, or negative for a root), the forward evaluator
satisfies `world[i] = rest[i] * basis[i]` for roots and
`world[i] = world[parent[i]] * rest[i] * basis[i]` for non-roots. -/
theorem eval_matrix_world_py_spec (parents : List Int) (mb ms : List Mat4)
    (htopo : ∀ i, i < mb.length → parents.getD i (-1) < 0 ∨
      (0 ≤ parents.getD i (-1) ∧ (parents.getD i (-1)).toNat < i)) :
    ∀ i, i < mb.length →
      (parents.getD i (-1) < 0 →
        (eval_matrix_world_py parents mb ms).getD i 1 = mb.getD i 1 * ms.getD i 1) ∧
      (0 ≤ parents.getD i (-1) →
        (eval_matrix_world_py parents mb ms).getD i 1 =
          (eval_matrix_world_py parents mb ms).getD (parents.getD i (-1)).toNat 1 *
            (mb.getD i 1 * ms.getD i 1)) := by
  intro i hi
  have hN : (emwList parents mb ms mb.length).getD i 1 =
      (emwList parents mb ms (i + 1)).getD i 1 :=
    emwList_getD_mono parents mb ms (Nat.succ_le_of_lt hi) (Nat.lt_succ_self i)
  rw [emwList_getD_last] at hN
  constructor
  · intro hroot
    rw [eval_matrix_world_py, hN, if_pos hroot]
  · intro hge
    have hnlt : ¬ parents.getD i (-1) < 0 := not_lt.mpr hge
    rcases htopo i hi with h | h
    · exact absurd h hnlt
    · rw [eval_matrix_world_py, hN, if_neg hnlt,
        emwList_getD_mono parents mb ms (le_of_lt hi) h.2]

/-- Witness for C1 at a concrete two-bone chain. -/
theorem eval_matrix_world_py_spec_witness :
    (∀ i, i < ([(1 : Mat4), 1]).length → ([(-1 : Int), 0]).getD i (-1) < 0 ∨
      (0 ≤ ([(-1 : Int), 0]).getD i (-1) ∧ (([(-1 : Int), 0]).getD i (-1)).toNat < i)) ∧
    (eval_matrix_world_py [(-1 : Int), 0] [1, 1] [1, 1]).getD 1 1 =
      (eval_matrix_world_py [(-1 : Int), 0] [1, 1] [1, 1]).getD 0 1 *
        (([(1 : Mat4), 1]).getD 1 1 * ([(1 : Mat4), 1]).getD 1 1) :=
  ⟨by decide,
   (eval_matrix_world_py_spec [(-1 : Int), 0] [1, 1] [1, 1] (by decide) 1 (by decide)).2
     (by decide)⟩

/-- Directional derivative of the forward pass in the direction `dbasis`
(the bones and rest matrices held fixed), unrolled over the first `n` bones
by the product rule for matrix multiplication:
`dlocal[i] = rest[i] * dbasis[i]`, `dworld[i] = dlocal[i]` for a root and
`dworld[i] = dworld[parent[i]] * local[i] + world[parent[i]] * dlocal[i]`
otherwise. -/
def demwList (parents : List Int) (mb ms dms world : List Mat4) : Nat → List Mat4
  | 0 => []
  | n + 1 =>
    let d := demwList parents mb ms dms world n
    let dlocal := mb.getD n 1 * dms.getD n 1
    d ++ [if parents.getD n (-1) < 0 then dlocal
          else d.getD (parents.getD n (-1)).toNat 1 * (mb.getD n 1 * ms.getD n 1) +
            world.getD (parents.getD n (-1)).toNat 1 * dlocal]

/-- The exact directional derivative of `eval_matrix_world_py` with respect
to the basis matrices, in the direction `dms`. -/
def dEvalMatrixWorld (parents : List Int) (mb ms dms : List Mat4) : List Mat4 :=
  demwList parents mb ms dms (eval_matrix_world_py parents mb ms) mb.length

theorem demwList_length (parents : List Int) (mb ms dms world : List Mat4) (n : Nat) :
    (demwList parents mb ms dms world n).length = n := by
  induction n with
  | zero => rfl
  | succ n ih => simp [demwList, ih]

theorem demwList_getD_mono (parents : List Int) (mb ms dms world : List Mat4) {m n j : Nat}
    (hmn : m ≤ n) (hj : j < m) :
    (demwList parents mb ms dms world n).getD j 1 =
      (demwList parents mb ms dms world m).getD j 1 := by
  induction n with
  | zero => omega
  | succ n ih =>
    rcases Nat.lt_or_ge m (n + 1) with h | h
    · have hmn' : m ≤ n := by omega
      rw [← ih hmn']
      show (demwList parents mb ms dms world n ++ _).getD j 1 = _
      rw [List.getD_append _ _ _ _ (by rw [demwList_length]; omega)]
    · have : m = n + 1 := by omega
      subst this; rfl

theorem demwList_getD_last (parents : List Int) (mb ms dms world : List Mat4) (n : Nat) :
    (demwList parents mb ms dms world (n + 1)).getD n 1 =
      (if parents.getD n (-1) < 0 then mb.getD n 1 * dms.getD n 1
       else (demwList parents mb ms dms world n).getD (parents.getD n (-1)).toNat 1 *
           (mb.getD n 1 * ms.getD n 1) +
         world.getD (parents.getD n (-1)).toNat 1 * (mb.getD n 1 * dms.getD n 1)) := by
  show (demwList parents mb ms dms world n ++ [_]).getD n 1 = _
  rw [List.getD_append_right _ _ _ _ (by rw [demwList_length])]
  rw [demwList_length]
  simp

/-- State of `EvalMatrixWorld.backward`: the accumulating gradient w.r.t.
the basis matrices (`grad_matrix_basis`, initialized to zeros) and the
world gradient buffer (`grad_out`, mutated in place by the loop). -/
structure BwdState where
  gradBasis : Nat → Mat4
  gradOut : Nat → Mat4

/-- One iteration of the `backward` loop at bone `i`:
`grad_matrix_basis[i] += rest[i]ᵀ @ (world[parent]ᵀ @ grad_out[i])` and
`grad_out[parent] += grad_out[i] @ local[i]ᵀ` for a non-root bone,
`grad_matrix_basis[i] += rest[i]ᵀ @ grad_out[i]` for a root. -/
def backwardStep (parents : List Int) (mb ms world : List Mat4) (i : Nat)
    (st : BwdState) : BwdState :=
  let g := st.gradOut i
  let localMat := mb.getD i 1 * ms.getD i 1
  if 0 ≤ parents.getD i (-1) then
    let p := (parents.getD i (-1)).toNat
    { gradBasis := Function.update st.gradBasis i
        (st.gradBasis i + (mb.getD i 1)ᵀ * ((world.getD p 1)ᵀ * g)),
      gradOut := Function.update st.gradOut p (st.gradOut p + g * localMatᵀ) }
  else
    { st with
      gradBasis := Function.update st.gradBasis i (st.gradBasis i + (mb.getD i 1)ᵀ * g) }

/-- `backwardIter … n j st` runs the `backward` loop over the `j` highest
bone indices, i.e. `i = n-1, n-2, …, n-j` (the full loop is `j = n`). -/
def backwardIter (parents : List Int) (mb ms world : List Mat4) (n : Nat) :
    Nat → BwdState → BwdState
  | 0, st => st
  | j + 1, st =>
    backwardStep parents mb ms world (n - (j + 1))
      (backwardIter parents mb ms world n j st)

/-- `EvalMatrixWorld.backward`: run the loop from the last bone down to
bone 0, starting from zero basis gradients and the incoming `grad_out`,
and return `grad_matrix_basis`. -/
def evalMatrixWorldBackward (parents : List Int) (mb ms world : List Mat4)
    (gradOut : Nat → Mat4) : Nat → Mat4 :=
  (backwardIter parents mb ms world mb.length mb.length
    { gradBasis := fun _ => 0, gradOut := gradOut }).gradBasis

/-- Frobenius inner product of two 4×4 matrices, `trace (Aᵀ B)`. -/
def minner (A B : Mat4) : ℚ :=
  (Aᵀ * B).trace

theorem minner_add_left (A B C : Mat4) : minner (A + B) C = minner A C + minner B C := by
  simp [minner, Matrix.transpose_add, Matrix.add_mul]

theorem minner_add_right (A B C : Mat4) : minner A (B + C) = minner A B + minner A C := by
  simp [minner, Matrix.mul_add]

theorem minner_mul_right (G A B : Mat4) : minner G (A * B) = minner (Aᵀ * G) B := by
  simp [minner, Matrix.transpose_mul, Matrix.transpose_transpose, Matrix.mul_assoc]

theorem minner_mul_left (G A B : Mat4) : minner G (A * B) = minner (G * Bᵀ) A := by
  have h1 : minner G (A * B) = (A * B * Gᵀ).trace := by
    rw [minner, Matrix.trace_mul_comm]
  have h2 : minner (G * Bᵀ) A = (B * Gᵀ * A).trace := by
    rw [minner, Matrix.transpose_mul, Matrix.transpose_transpose]
  rw [h1, h2, Matrix.mul_assoc, Matrix.trace_mul_comm]

theorem minner_zero_left (B : Mat4) : minner 0 B = 0 := by
  simp [minner]

theorem dEvalMatrixWorld_getD_root (parents : List Int) (mb ms dms : List Mat4) {i : Nat}
    (hi : i < mb.length) (hroot : parents.getD i (-1) < 0) :
    (dEvalMatrixWorld parents mb ms dms).getD i 1 = mb.getD i 1 * dms.getD i 1 := by
  have hN := demwList_getD_mono parents mb ms dms (eval_matrix_world_py parents mb ms)
    (Nat.succ_le_of_lt hi) (Nat.lt_succ_self i)
  rw [demwList_getD_last] at hN
  rw [dEvalMatrixWorld, hN, if_pos hroot]

theorem dEvalMatrixWorld_getD_nonroot (parents : List Int) (mb ms dms : List Mat4) {i : Nat}
    (hi : i < mb.length) (hge : 0 ≤ parents.getD i (-1))
    (hp : (parents.getD i (-1)).toNat < i) :
    (dEvalMatrixWorld parents mb ms dms).getD i 1 =
      (dEvalMatrixWorld parents mb ms dms).getD (parents.getD i (-1)).toNat 1 *
          (mb.getD i 1 * ms.getD i 1) +
        (eval_matrix_world_py parents mb ms).getD (parents.getD i (-1)).toNat 1 *
          (mb.getD i 1 * dms.getD i 1) := by
  have hN := demwList_getD_mono parents mb ms dms (eval_matrix_world_py parents mb ms)
    (Nat.succ_le_of_lt hi) (Nat.lt_succ_self i)
  rw [demwList_getD_last] at hN
  rw [dEvalMatrixWorld, hN, if_neg (not_lt.mpr hge),
    demwList_getD_mono parents mb ms dms (eval_matrix_world_py parents mb ms)
      (le_of_lt hi) hp]

theorem sum_minner_update_add (f w : Nat → Mat4) (i : Nat) (X : Mat4) (s : Finset Nat)
    (hi : i ∈ s) :
    ∑ k ∈ s, minner (Function.update f i (f i + X) k) (w k)
      = (∑ k ∈ s, minner (f k) (w k)) + minner X (w i) := by
  have hcong : ∀ k ∈ s, minner (Function.update f i (f i + X) k) (w k)
      = Function.update (fun k => minner (f k) (w k)) i (minner (f i + X) (w i)) k := by
    intro k _
    by_cases hki : k = i
    · subst hki; simp
    · simp [Function.update_noteq hki]
  rw [Finset.sum_congr rfl hcong, Finset.sum_update_of_mem hi,
    Finset.sum_eq_sum_diff_singleton_add hi (fun k => minner (f k) (w k)),
    minner_add_left]
  ring

theorem sum_minner_update_addL (f : Nat → Mat4) (wl : List Mat4) (i : Nat) (X : Mat4)
    (s : Finset Nat) (hi : i ∈ s) :
    ∑ k ∈ s, minner (Function.update f i (f i + X) k) (wl.getD k 1)
      = (∑ k ∈ s, minner (f k) (wl.getD k 1)) + minner X (wl.getD i 1) :=
  sum_minner_update_add f (fun k => wl.getD k 1) i X s hi

theorem backwardStep_root_gradBasis (parents : List Int) (mb ms world : List Mat4)
    (i : Nat) (st : BwdState) (h : ¬ 0 ≤ parents.getD i (-1)) :
    (backwardStep parents mb ms world i st).gradBasis =
      Function.update st.gradBasis i (st.gradBasis i + (mb.getD i 1)ᵀ * st.gradOut i) := by
  simp only [backwardStep]
  rw [if_neg h]

theorem backwardStep_root_gradOut (parents : List Int) (mb ms world : List Mat4)
    (i : Nat) (st : BwdState) (h : ¬ 0 ≤ parents.getD i (-1)) :
    (backwardStep parents mb ms world i st).gradOut = st.gradOut := by
  simp only [backwardStep]
  rw [if_neg h]

theorem backwardStep_nonroot_gradBasis (parents : List Int) (mb ms world : List Mat4)
    (i : Nat) (st : BwdState) (h : 0 ≤ parents.getD i (-1)) :
    (backwardStep parents mb ms world i st).gradBasis =
      Function.update st.gradBasis i
        (st.gradBasis i + (mb.getD i 1)ᵀ *
          ((world.getD (parents.getD i (-1)).toNat 1)ᵀ * st.gradOut i)) := by
  simp only [backwardStep]
  rw [if_pos h]

theorem backwardStep_nonroot_gradOut (parents : List Int) (mb ms world : List Mat4)
    (i : Nat) (st : BwdState) (h : 0 ≤ parents.getD i (-1)) :
    (backwardStep parents mb ms world i st).gradOut =
      Function.update st.gradOut (parents.getD i (-1)).toNat
        (st.gradOut (parents.getD i (-1)).toNat +
          st.gradOut i * (mb.getD i 1 * ms.getD i 1)ᵀ) := by
  simp only [backwardStep]
  rw [if_pos h]

theorem backwardStep_phi (parents : List Int) (mb ms dms : List Mat4) (st : BwdState)
    {i : Nat} (hi : i < mb.length)
    (htopo_i : parents.getD i (-1) < 0 ∨
      (0 ≤ parents.getD i (-1) ∧ (parents.getD i (-1)).toNat < i)) :
    (∑ k ∈ Finset.range mb.length,
        minner ((backwardStep parents mb ms (eval_matrix_world_py parents mb ms) i
          st).gradBasis k) (dms.getD k 1)) +
      ∑ j ∈ Finset.range i,
        minner ((backwardStep parents mb ms (eval_matrix_world_py parents mb ms) i
          st).gradOut j) ((dEvalMatrixWorld parents mb ms dms).getD j 1)
    = (∑ k ∈ Finset.range mb.length, minner (st.gradBasis k) (dms.getD k 1)) +
      ∑ j ∈ Finset.range (i + 1),
        minner (st.gradOut j) ((dEvalMatrixWorld parents mb ms dms).getD j 1) := by
  rcases htopo_i with hroot | ⟨hge, hp⟩
  · have hnot : ¬ 0 ≤ parents.getD i (-1) := not_le.mpr hroot
    rw [backwardStep_root_gradBasis parents mb ms _ i st hnot,
      backwardStep_root_gradOut parents mb ms _ i st hnot,
      sum_minner_update_addL st.gradBasis dms i _ _ (Finset.mem_range.mpr hi),
      Finset.sum_range_succ, dEvalMatrixWorld_getD_root parents mb ms dms hi hroot,
      minner_mul_right]
    ring
  · rw [backwardStep_nonroot_gradBasis parents mb ms _ i st hge,
      backwardStep_nonroot_gradOut parents mb ms _ i st hge,
      sum_minner_update_addL st.gradBasis dms i _ _ (Finset.mem_range.mpr hi),
      sum_minner_update_addL st.gradOut (dEvalMatrixWorld parents mb ms dms) _ _ _
        (Finset.mem_range.mpr hp),
      Finset.sum_range_succ, dEvalMatrixWorld_getD_nonroot parents mb ms dms hi hge hp,
      minner_add_right]
    have e1 : minner (st.gradOut i)
        ((dEvalMatrixWorld parents mb ms dms).getD (parents.getD i (-1)).toNat 1 *
          (mb.getD i 1 * ms.getD i 1)) =
        minner (st.gradOut i * (mb.getD i 1 * ms.getD i 1)ᵀ)
          ((dEvalMatrixWorld parents mb ms dms).getD (parents.getD i (-1)).toNat 1) :=
      minner_mul_left _ _ _
    have e2 : minner (st.gradOut i)
        ((eval_matrix_world_py parents mb ms).getD (parents.getD i (-1)).toNat 1 *
          (mb.getD i 1 * dms.getD i 1)) =
        minner ((mb.getD i 1)ᵀ *
          (((eval_matrix_world_py parents mb ms).getD (parents.getD i (-1)).toNat 1)ᵀ *
            st.gradOut i)) (dms.getD i 1) := by
      rw [minner_mul_right, minner_mul_right]
    rw [e1, e2]
    ring

theorem backwardIter_phi (parents : List Int) (mb ms dms : List Mat4) (G : Nat → Mat4)
    (htopo : ∀ i, i < mb.length → parents.getD i (-1) < 0 ∨
      (0 ≤ parents.getD i (-1) ∧ (parents.getD i (-1)).toNat < i)) :
    ∀ j, j ≤ mb.length →
      (∑ k ∈ Finset.range mb.length,
          minner ((backwardIter parents mb ms (eval_matrix_world_py parents mb ms)
            mb.length j { gradBasis := fun _ => 0, gradOut := G }).gradBasis k)
            (dms.getD k 1)) +
        ∑ i ∈ Finset.range (mb.length - j),
          minner ((backwardIter parents mb ms (eval_matrix_world_py parents mb ms)
            mb.length j { gradBasis := fun _ => 0, gradOut := G }).gradOut i)
            ((dEvalMatrixWorld parents mb ms dms).getD i 1)
      = ∑ i ∈ Finset.range mb.length,
          minner (G i) ((dEvalMatrixWorld parents mb ms dms).getD i 1) := by
  intro j
  induction j with
  | zero => intro _; simp [backwardIter, minner_zero_left]
  | succ j ih =>
    intro hj
    have hi : mb.length - (j + 1) < mb.length := by omega
    have step := backwardStep_phi parents mb ms dms
      (backwardIter parents mb ms (eval_matrix_world_py parents mb ms) mb.length j
        { gradBasis := fun _ => 0, gradOut := G }) hi (htopo _ hi)
    rw [show mb.length - (j + 1) + 1 = mb.length - j from by omega] at step
    exact step.trans (ih (by omega))

theorem backwardStep_gradBasis_ne (parents : List Int) (mb ms world : List Mat4)
    (i : Nat) (st : BwdState) {k : Nat} (hk : k ≠ i) :
    (backwardStep parents mb ms world i st).gradBasis k = st.gradBasis k := by
  by_cases h : 0 ≤ parents.getD i (-1)
  · rw [backwardStep_nonroot_gradBasis parents mb ms world i st h,
      Function.update_noteq hk]
  · rw [backwardStep_root_gradBasis parents mb ms world i st h,
      Function.update_noteq hk]

theorem backwardIter_gradBasis_untouched (parents : List Int) (mb ms world : List Mat4)
    (n : Nat) (st0 : BwdState) :
    ∀ j k, k + j < n →
      (backwardIter parents mb ms world n j st0).gradBasis k = st0.gradBasis k := by
  intro j
  induction j with
  | zero => intro k _; rfl
  | succ j ih =>
    intro k hk
    show (backwardStep parents mb ms world (n - (j + 1))
      (backwardIter parents mb ms world n j st0)).gradBasis k = _
    rw [backwardStep_gradBasis_ne parents mb ms world _ _ (by omega), ih k (by omega)]

theorem backwardIter_gradBasis_stable (parents : List Int) (mb ms world : List Mat4)
    (n : Nat) (st0 : BwdState) {k : Nat} (hk : k < n) :
    ∀ j, n - k ≤ j → j ≤ n →
      (backwardIter parents mb ms world n j st0).gradBasis k =
        (backwardIter parents mb ms world n (n - k) st0).gradBasis k := by
  intro j
  induction j with
  | zero =>
    intro h1 _
    rw [show n - k = 0 from by omega]
  | succ j ih =>
    intro h1 h2
    rcases Nat.lt_or_ge j (n - k) with h | h
    · rw [show n - k = j + 1 from by omega]
    · show (backwardStep parents mb ms world (n - (j + 1))
        (backwardIter parents mb ms world n j st0)).gradBasis k = _
      rw [backwardStep_gradBasis_ne parents mb ms world _ _ (by omega), ih h (by omega)]

/-- The world gradient accumulated at index `k` at the moment the backward
loop reaches bone `k` (all children of `k` already processed). -/
def bwdGradOutAt (parents : List Int) (mb ms world : List Mat4) (G : Nat → Mat4)
    (k : Nat) : Mat4 :=
  (backwardIter parents mb ms world mb.length (mb.length - 1 - k)
    { gradBasis := fun _ => 0, gradOut := G }).gradOut k

theorem evalMatrixWorldBackward_processed (parents : List Int) (mb ms world : List Mat4)
    (G : Nat → Mat4) {k : Nat} (hk : k < mb.length) :
    evalMatrixWorldBackward parents mb ms world G k =
      (backwardStep parents mb ms world k
        (backwardIter parents mb ms world mb.length (mb.length - 1 - k)
          { gradBasis := fun _ => 0, gradOut := G })).gradBasis k := by
  rw [evalMatrixWorldBackward,
    backwardIter_gradBasis_stable parents mb ms world mb.length _ hk mb.length
      (by omega) le_rfl,
    show mb.length - k = (mb.length - 1 - k) + 1 from by omega]
  show (backwardStep parents mb ms world (mb.length - ((mb.length - 1 - k) + 1))
    (backwardIter parents mb ms world mb.length (mb.length - 1 - k)
      { gradBasis := fun _ => 0, gradOut := G })).gradBasis k = _
  rw [show mb.length - ((mb.length - 1 - k) + 1) = k from by omega]

/-- C2: the backward pass, processing bones from highest index to lowest,
computes for every non-root bone the gradient w.r.t. `basis[k]` as
`rest[k]ᵀ · world[parent[k]]ᵀ · dWorld[k]` (with `dWorld[k]` the world
gradient accumulated by the time bone `k` is processed), adding
`dWorld[k] · local[k]ᵀ` into the parent's world gradient, and for every
root bone `rest[k]ᵀ · dWorld[k]`; and the returned basis gradient is the
exact analytic gradient of the forward pass: for every direction `dms`,
`⟪grad_out, D_dms world⟫ = ⟪grad_basis, dms⟫` in the Frobenius inner
product. -/
theorem eval_matrix_world_backward_spec (parents : List Int) (mb ms dms : List Mat4)
    (G : Nat → Mat4)
    (htopo : ∀ i, i < mb.length → parents.getD i (-1) < 0 ∨
      (0 ≤ parents.getD i (-1) ∧ (parents.getD i (-1)).toNat < i)) :
    (∀ k, k < mb.length → parents.getD k (-1) < 0 →
      evalMatrixWorldBackward parents mb ms (eval_matrix_world_py parents mb ms) G k =
        (mb.getD k 1)ᵀ *
          bwdGradOutAt parents mb ms (eval_matrix_world_py parents mb ms) G k) ∧
    (∀ k, k < mb.length → 0 ≤ parents.getD k (-1) →
      evalMatrixWorldBackward parents mb ms (eval_matrix_world_py parents mb ms) G k =
        (mb.getD k 1)ᵀ *
          (((eval_matrix_world_py parents mb ms).getD (parents.getD k (-1)).toNat 1)ᵀ *
            bwdGradOutAt parents mb ms (eval_matrix_world_py parents mb ms) G k)) ∧
    (∀ k, k < mb.length → 0 ≤ parents.getD k (-1) →
      (backwardIter parents mb ms (eval_matrix_world_py parents mb ms) mb.length
          (mb.length - k) { gradBasis := fun _ => 0, gradOut := G }).gradOut
          (parents.getD k (-1)).toNat =
        (backwardIter parents mb ms (eval_matrix_world_py parents mb ms) mb.length
          (mb.length - 1 - k) { gradBasis := fun _ => 0, gradOut := G }).gradOut
          (parents.getD k (-1)).toNat +
          bwdGradOutAt parents mb ms (eval_matrix_world_py parents mb ms) G k *
            (mb.getD k 1 * ms.getD k 1)ᵀ) ∧
    (∑ i ∈ Finset.range mb.length,
        minner (G i) ((dEvalMatrixWorld parents mb ms dms).getD i 1) =
      ∑ k ∈ Finset.range mb.length,
        minner (evalMatrixWorldBackward parents mb ms
          (eval_matrix_world_py parents mb ms) G k) (dms.getD k 1)) := by
  refine ⟨?_, ?_, ?_, ?_⟩
  · intro k hk hroot
    rw [evalMatrixWorldBackward_processed parents mb ms _ G hk,
      backwardStep_root_gradBasis parents mb ms _ k _ (not_le.mpr hroot),
      Function.update_same,
      backwardIter_gradBasis_untouched parents mb ms _ mb.length _ (mb.length - 1 - k)
        k (by omega)]
    simp [bwdGradOutAt]
  · intro k hk hge
    rw [evalMatrixWorldBackward_processed parents mb ms _ G hk,
      backwardStep_nonroot_gradBasis parents mb ms _ k _ hge,
      Function.update_same,
      backwardIter_gradBasis_untouched parents mb ms _ mb.length _ (mb.length - 1 - k)
        k (by omega)]
    simp [bwdGradOutAt]
  · intro k hk hge
    rw [show mb.length - k = (mb.length - 1 - k) + 1 from by omega]
    show (backwardStep parents mb ms (eval_matrix_world_py parents mb ms)
        (mb.length - ((mb.length - 1 - k) + 1))
        (backwardIter parents mb ms (eval_matrix_world_py parents mb ms) mb.length
          (mb.length - 1 - k) { gradBasis := fun _ => 0, gradOut := G })).gradOut
        (parents.getD k (-1)).toNat = _
    rw [show mb.length - ((mb.length - 1 - k) + 1) = k from by omega,
      backwardStep_nonroot_gradOut parents mb ms _ k _ hge, Function.update_same]
    rfl
  · have hphi := backwardIter_phi parents mb ms dms G htopo mb.length le_rfl
    rw [Nat.sub_self, Finset.range_zero, Finset.sum_empty, add_zero] at hphi
    exact hphi.symm

/-- Witness for C2 at a concrete two-bone chain with unit gradients. -/
theorem eval_matrix_world_backward_spec_witness :
    (∀ i, i < ([(1 : Mat4), 1]).length → ([(-1 : Int), 0]).getD i (-1) < 0 ∨
      (0 ≤ ([(-1 : Int), 0]).getD i (-1) ∧ (([(-1 : Int), 0]).getD i (-1)).toNat < i)) ∧
    (∑ i ∈ Finset.range ([(1 : Mat4), 1]).length,
        minner ((fun _ => (1 : Mat4)) i)
          ((dEvalMatrixWorld [(-1 : Int), 0] [1, 1] [1, 1] [1, 1]).getD i 1) =
      ∑ k ∈ Finset.range ([(1 : Mat4), 1]).length,
        minner (evalMatrixWorldBackward [(-1 : Int), 0] [1, 1] [1, 1]
          (eval_matrix_world_py [(-1 : Int), 0] [1, 1] [1, 1]) (fun _ => (1 : Mat4)) k)
          (([(1 : Mat4), 1]).getD k 1)) :=
  ⟨by decide,
   (eval_matrix_world_backward_spec [(-1 : Int), 0] [1, 1] [1, 1] [1, 1]
     (fun _ => (1 : Mat4)) (by decide)).2.2.2⟩

def v3zero : Vec3 := fun _ => 0

/-- `torch.mean` of a 1-D tensor (`sum / length`; over ℚ the empty mean is
`0/0 = 0`, which like torch's NaN fails every `> 0` test). -/
def listMean (l : List ℚ) : ℚ :=
  l.sum / l.length

/-- `torch.mean(dim=0)` of a stack of 3-vectors. -/
def vecMean (l : List Vec3) : Vec3 :=
  fun i => (l.map (fun v => v i)).sum / l.length

/-- Mean over all scalar entries of a stack of 3-vectors (torch `.mean()`
of an `(n, 3)` tensor). -/
def vec3ListMean (l : List Vec3) : ℚ :=
  (l.map (fun v => v 0 + v 1 + v 2)).sum / (3 * l.length)

/-- `F.mse_loss(input, target)`: mean of squared entry differences. -/
def mseLoss (a b : List Vec3) : ℚ :=
  ((List.zip a b).map (fun p =>
    (p.1 0 - p.2 0) ^ 2 + (p.1 1 - p.2 1) ^ 2 + (p.1 2 - p.2 2) ^ 2)).sum /
    (3 * (List.zip a b).length)

/-- Translation column of a 4×4 transform, `M[:3, 3]`. -/
def translationOf (M : Mat4) : Vec3 :=
  fun i => M i.castSucc 3

/-- Multiplication by `torch.tensor([s, s, s, 1.])[None, :, None]`: every
entry of rows 0–2 of the 4×4 matrix is scaled by `s`, row 3 is unchanged. -/
def scaleRows (sc : ℚ) (M : Mat4) : Mat4 :=
  Matrix.of fun i j => (if (i : Nat) < 3 then sc else 1) * M i j

/-- A 3-vector extended by a zero fourth coordinate. -/
def locExt (loc : Vec3) : Fin 4 → ℚ :=
  fun i => if h : (i : Nat) < 3 then loc ⟨i, h⟩ else 0

/-- `matrix_world[:, :3, 3] += location`. -/
def addLocationCol (loc : Vec3) (M : Mat4) : Mat4 :=
  Matrix.of fun i j => M i j + if j = (3 : Fin 4) then locExt loc i else 0

/-- `torch.gather(torch.cat([torch.eye(4).unsqueeze(0), optim_basis]), 0, id)`:
bone `j` takes the identity when `gather_id[j] = 0` and optimizable matrix
`gather_id[j] - 1` otherwise. -/
def gatherBasis (gatherId : List Nat) (optimBasis : List Mat4) : List Mat4 :=
  gatherId.map (fun g => ((1 : Mat4) :: optimBasis).getD g 1)

/-- Modelled from the spec: the routines the solver calls whose code is not
part of this repository's sources — `torch.exp` (`qexp`), the Euclidean
norm of a 3-vector (`norm3`, torch's `norm`; ℚ has no square root so it is
kept abstract), `utils3d.euler_angle_to_matrix` with YXZ composition order
(`eulerToMatrix`), the effect of one `torch.optim.LBFGS.step(closure)` call
on the parameter vector (`optimStep`, the quasi-Newton optimizer), and
`utils3d.mls_smooth`, the moving-least-squares weighted local regression
over `(timestamps, values)` evaluated at the query time, for Euler-angle
stacks (`mlsSmoothAngles`) and 3-vectors (`mlsSmoothLocation`). -/
structure ExternalFns where
  qexp : ℚ → ℚ
  norm3 : Vec3 → ℚ
  eulerToMatrix : Vec3 → Mat4
  optimStep : (List Vec3 → ℚ) → List Vec3 → List Vec3
  mlsSmoothAngles : List ℚ → List (List Vec3) → ℚ → ℚ → List Vec3
  mlsSmoothLocation : List ℚ → List Vec3 → ℚ → ℚ → Vec3

/-- `barrier(x, a, b) = exp(4 * (x - b)) + exp(4 * (a - x))`, elementwise. -/
def barrier (ext : ExternalFns) (x a b : ℚ) : ℚ :=
  ext.qexp (4 * (x - b)) + ext.qexp (4 * (a - x))

/-- The state of a `SkeletonIKSolver` instance: the index tables resolved
in `__init__` from the skeleton model, the loss weights, and the mutable
per-frame state (`optim_bone_euler`, the two histories, `align_scale`). -/
structure SkeletonIKSolver where
  numKeypoints : Nat
  allBoneParentsId : List Int
  allBoneMatrix : List Mat4
  boneParentsId : List Int
  boneMatrix : List Mat4
  kptPairsA : List Nat
  kptPairsB : List Nat
  jointPairsA : List Nat
  jointPairsB : List Nat
  jointConstraintId : List Nat
  jointConstraintsMin : List Vec3
  jointConstraintsMax : List Vec3
  alignLocationKpts : List Nat
  alignLocationBones : List Nat
  alignScalePairsKpt : List (Nat × Nat)
  alignScalePairsLength : List ℚ
  gatherId : List Nat
  allGatherId : List Nat
  jointConstraintLossWeight : ℚ
  poseRegLossWeight : ℚ
  smoothRange : ℚ
  optimBoneEuler : List Vec3
  eulerAngleHistory : List (List Vec3 × ℚ)
  locationHistory : List (Vec3 × ℚ)
  alignScale : ℚ

/-- `pair_valid = valid[kpt_pairs_a] & valid[kpt_pairs_b]`. -/
def fitPairValid (s : SkeletonIKSolver) (valid : List Bool) : List Bool :=
  (List.zip s.kptPairsA s.kptPairsB).map
    (fun ab => valid.getD ab.1 false && valid.getD ab.2 false)

/-- The direction keypoint pairs filtered by `pair_valid`. -/
def fitKptPairs (s : SkeletonIKSolver) (valid : List Bool) : List (Nat × Nat) :=
  ((List.zip s.kptPairsA s.kptPairsB).zip (fitPairValid s valid)).filterMap
    (fun pv => if pv.2 then some pv.1 else none)

/-- The model joint pairs filtered by the same `pair_valid` mask. -/
def fitJointPairs (s : SkeletonIKSolver) (valid : List Bool) : List (Nat × Nat) :=
  ((List.zip s.jointPairsA s.jointPairsB).zip (fitPairValid s valid)).filterMap
    (fun pv => if pv.2 then some pv.1 else none)

/-- `kpt_dir = kpts[kpt_pairs_a] - kpts[kpt_pairs_b]` (before rescaling). -/
def fitKptDirRaw (s : SkeletonIKSolver) (kpts : List Vec3) (valid : List Bool) : List Vec3 :=
  (fitKptPairs s valid).map (fun ab => kpts.getD ab.1 v3zero - kpts.getD ab.2 v3zero)

/-- `align_scale = (kpt_pairs_length / align_scale_pairs_length).mean()`,
where `kpt_pairs_length` is the observed distance of every scale pair
(note: the scale pairs are NOT filtered by validity in the source). -/
def fitAlignScale (ext : ExternalFns) (s : SkeletonIKSolver) (kpts : List Vec3) : ℚ :=
  listMean (List.zipWith (fun a b => a / b)
    (s.alignScalePairsKpt.map
      (fun ab => ext.norm3 (kpts.getD ab.1 v3zero - kpts.getD ab.2 v3zero)))
    s.alignScalePairsLength)

/-- `kpt_dir` after the conditional rescaling by `align_scale`. -/
def fitKptDir (ext : ExternalFns) (s : SkeletonIKSolver) (kpts : List Vec3)
    (valid : List Bool) : List Vec3 :=
  if 0 < fitAlignScale ext s kpts then
    (fitKptDirRaw s kpts valid).map (fun v => fun i => v i / fitAlignScale ext s kpts)
  else fitKptDirRaw s kpts valid

/-- `_loss_closure` evaluated at the angle vector `euler`:
`dir_loss + pose_reg_loss_weight * pose_reg_loss +
joint_constraint_loss_weight * joint_prior_loss`. -/
def lossClosure (ext : ExternalFns) (s : SkeletonIKSolver)
    (jointPairsA jointPairsB : List Nat) (kptDir : List Vec3) (euler : List Vec3) : ℚ :=
  let optimMatrixBasis := euler.map ext.eulerToMatrix
  let matrixBasis := gatherBasis s.gatherId optimMatrixBasis
  let matrixWorld := eval_matrix_world_py s.boneParentsId s.boneMatrix matrixBasis
  let joints := matrixWorld.map translationOf
  let jointDir := (List.zip jointPairsA jointPairsB).map
    (fun ab => joints.getD ab.1 v3zero - joints.getD ab.2 v3zero)
  let dirLoss := mseLoss kptDir jointDir
  let constrained := s.jointConstraintId.map (fun j => euler.getD j v3zero)
  let jointPriorLoss := vec3ListMean
    ((List.zip constrained (List.zip s.jointConstraintsMin s.jointConstraintsMax)).map
      (fun t => fun i : Fin 3 => barrier ext (t.1 i) (t.2.1 i) (t.2.2 i)))
  let poseRegLoss := vec3ListMean (euler.map (fun v => fun i => (v i) ^ 2))
  dirLoss + s.poseRegLossWeight * poseRegLoss + s.jointConstraintLossWeight * jointPriorLoss

/-- The angle vector after the conditional optimizer invocation:
`optimizer.step(_loss_closure)` runs only when `len(kpt_dir) > 0`. -/
def fitEuler (ext : ExternalFns) (s : SkeletonIKSolver) (kpts : List Vec3)
    (valid : List Bool) : List Vec3 :=
  if 0 < (fitKptDir ext s kpts valid).length then
    ext.optimStep
      (lossClosure ext s ((fitJointPairs s valid).map Prod.fst)
        ((fitJointPairs s valid).map Prod.snd) (fitKptDir ext s kpts valid))
      s.optimBoneEuler
  else s.optimBoneEuler

/-- The post-optimization world transforms of `fit` (scaled by the local
`align_scale`), used only to compute the root location. -/
def fitMatrixWorld (ext : ExternalFns) (s : SkeletonIKSolver) (kpts : List Vec3)
    (valid : List Bool) : List Mat4 :=
  (eval_matrix_world_py s.boneParentsId s.boneMatrix
    (gatherBasis s.allGatherId ((fitEuler ext s kpts valid).map ext.eulerToMatrix))).map
      (scaleRows (fitAlignScale ext s kpts))

/-- `location = kpts[align_location_kpts].mean(0) -
matrix_world[align_location_bones, :3, 3].mean(0)`. -/
def fitLocation (ext : ExternalFns) (s : SkeletonIKSolver) (kpts : List Vec3)
    (valid : List Bool) : Vec3 :=
  vecMean (s.alignLocationKpts.map (fun k => kpts.getD k v3zero)) -
    vecMean (s.alignLocationBones.map
      (fun b => translationOf ((fitMatrixWorld ext s kpts valid).getD b 1)))

/-- `SkeletonIKSolver.fit(kpts, valid, frame_t)`: filter the correspondence
pairs, estimate the scale, conditionally run the optimizer, compute the
root location, and append to both histories.  `ext.optimStep` abstracts the
L-BFGS step; everything else follows the source line by line. -/
def SkeletonIKSolver.fit (ext : ExternalFns) (s : SkeletonIKSolver)
    (kpts : List Vec3) (valid : List Bool) (frameT : ℚ) : SkeletonIKSolver :=
  { s with
    optimBoneEuler := fitEuler ext s kpts valid,
    alignScale := if 0 < fitAlignScale ext s kpts then fitAlignScale ext s kpts
      else s.alignScale,
    eulerAngleHistory := s.eulerAngleHistory ++ [(fitEuler ext s kpts valid, frameT)],
    locationHistory := s.locationHistory ++ [(fitLocation ext s kpts valid, frameT)] }

/-- `get_smoothed_bone_euler(query_t)`: select history samples with
`|t - query_t| < smooth_range`; `none` models the exception the source
raises when the selection is empty (`zip(*…)` unpacking fails); with 1 or 2
samples return the most recent selected sample; otherwise `mls_smooth`. -/
def SkeletonIKSolver.getSmoothedBoneEuler (ext : ExternalFns) (s : SkeletonIKSolver)
    (queryT : ℚ) : Option (List Vec3) :=
  let selected := s.eulerAngleHistory.filter (fun et => |et.2 - queryT| < s.smoothRange)
  if selected.length = 0 then none
  else if selected.length ≤ 2 then (selected.getLast?).map Prod.fst
  else some (ext.mlsSmoothAngles (selected.map Prod.snd) (selected.map Prod.fst)
    queryT s.smoothRange)

/-- `get_smoothed_location(query_t)`, same structure over the location
history. -/
def SkeletonIKSolver.getSmoothedLocation (ext : ExternalFns) (s : SkeletonIKSolver)
    (queryT : ℚ) : Option Vec3 :=
  let selected := s.locationHistory.filter (fun et => |et.2 - queryT| < s.smoothRange)
  if selected.length = 0 then none
  else if selected.length ≤ 2 then (selected.getLast?).map Prod.fst
  else some (ext.mlsSmoothLocation (selected.map Prod.snd) (selected.map Prod.fst)
    queryT s.smoothRange)

/-- `eval_bone_matrix_world(bone_euler, location, scale)`: full-skeleton
forward pass with the remapped basis matrices, rows 0–2 scaled by `scale`,
then `location` added to the translation column. -/
def SkeletonIKSolver.evalBoneMatrixWorld (ext : ExternalFns) (s : SkeletonIKSolver)
    (boneEuler : List Vec3) (location : Vec3) (scale : ℚ) : List Mat4 :=
  ((eval_matrix_world_py s.allBoneParentsId s.allBoneMatrix
    (gatherBasis s.allGatherId (boneEuler.map ext.eulerToMatrix))).map
      (scaleRows scale)).map (addLocationCol location)

theorem fitKptPairs_all_invalid (s : SkeletonIKSolver) (valid : List Bool)
    (hall : ∀ b ∈ valid, b = false) : fitKptPairs s valid = [] := by
  have hgetD : ∀ a, valid.getD a false = false := by
    intro a
    rcases Nat.lt_or_ge a valid.length with h | h
    · rw [List.getD_eq_getElem valid false h]
      exact hall _ (List.getElem_mem h)
    · exact List.getD_eq_default valid false h
  rw [fitKptPairs, List.filterMap_eq_nil_iff]
  intro pv hpv
  have h2 : pv.2 ∈ fitPairValid s valid := (List.of_mem_zip hpv).2
  have : pv.2 = false := by
    rw [fitPairValid] at h2
    rcases List.mem_map.mp h2 with ⟨ab, _, hab⟩
    rw [← hab, hgetD, Bool.false_and]
  rw [this]
  rfl

theorem fitKptDir_all_invalid (ext : ExternalFns) (s : SkeletonIKSolver)
    (kpts : List Vec3) (valid : List Bool) (hall : ∀ b ∈ valid, b = false) :
    fitKptDir ext s kpts valid = [] := by
  have hraw : fitKptDirRaw s kpts valid = [] := by
    rw [fitKptDirRaw, fitKptPairs_all_invalid s valid hall]
    rfl
  rw [fitKptDir, hraw]
  split <;> rfl

/-- C3: when every validity flag is false the filtered direction-pair set
is empty, `optimizer.step` is never invoked, and `fit` leaves
`optim_bone_euler` exactly unchanged. -/
theorem fit_all_invalid_keeps_angles (ext : ExternalFns) (s : SkeletonIKSolver)
    (kpts : List Vec3) (valid : List Bool) (frameT : ℚ)
    (hall : ∀ b ∈ valid, b = false) :
    (SkeletonIKSolver.fit ext s kpts valid frameT).optimBoneEuler = s.optimBoneEuler := by
  show fitEuler ext s kpts valid = s.optimBoneEuler
  rw [fitEuler, fitKptDir_all_invalid ext s kpts valid hall]
  rfl

/-- The objective as the claim words it: identical to `lossClosure` except
that the barrier term is SUMMED over the constrained DOFs instead of
averaged.  Kept only to compare the claim's wording with the code. -/
def lossClosureClaimBarrierSummed (ext : ExternalFns) (s : SkeletonIKSolver)
    (jointPairsA jointPairsB : List Nat) (kptDir : List Vec3) (euler : List Vec3) : ℚ :=
  let optimMatrixBasis := euler.map ext.eulerToMatrix
  let matrixBasis := gatherBasis s.gatherId optimMatrixBasis
  let matrixWorld := eval_matrix_world_py s.boneParentsId s.boneMatrix matrixBasis
  let joints := matrixWorld.map translationOf
  let jointDir := (List.zip jointPairsA jointPairsB).map
    (fun ab => joints.getD ab.1 v3zero - joints.getD ab.2 v3zero)
  let dirLoss := mseLoss kptDir jointDir
  let constrained := s.jointConstraintId.map (fun j => euler.getD j v3zero)
  let jointPriorLoss :=
    ((List.zip constrained (List.zip s.jointConstraintsMin s.jointConstraintsMax)).map
      (fun t => barrier ext (t.1 0) (t.2.1 0) (t.2.2 0) +
        barrier ext (t.1 1) (t.2.1 1) (t.2.2 1) +
        barrier ext (t.1 2) (t.2.1 2) (t.2.2 2))).sum
  let poseRegLoss := vec3ListMean (euler.map (fun v => fun i => (v i) ^ 2))
  dirLoss + s.poseRegLossWeight * poseRegLoss + s.jointConstraintLossWeight * jointPriorLoss

/-- Concrete external functions for witnesses and counterexamples.  On the
axis-aligned difference vectors below, `norm3` agrees with the Euclidean
norm. -/
def extC : ExternalFns :=
  { qexp := fun x => x,
    norm3 := fun v => |v 0| + |v 1| + |v 2|,
    eulerToMatrix := fun _ => 1,
    optimStep := fun _ a => a.map (fun v => fun i => v i + 1),
    mlsSmoothAngles := fun _ vals _ _ => vals.getD 0 [],
    mlsSmoothLocation := fun _ vals _ _ => vals.getD 0 v3zero }

/-- A small concrete solver state: one bone, four keypoints, two direction
pairs and two scale pairs. -/
def sBase : SkeletonIKSolver :=
  { numKeypoints := 4,
    allBoneParentsId := [-1], allBoneMatrix := [1],
    boneParentsId := [-1], boneMatrix := [1],
    kptPairsA := [0, 2], kptPairsB := [1, 3],
    jointPairsA := [0, 0], jointPairsB := [0, 0],
    jointConstraintId := [0],
    jointConstraintsMin := [v3zero], jointConstraintsMax := [v3zero],
    alignLocationKpts := [0], alignLocationBones := [0],
    alignScalePairsKpt := [(0, 1), (2, 3)], alignScalePairsLength := [1, 1],
    gatherId := [1], allGatherId := [1],
    jointConstraintLossWeight := 1, poseRegLossWeight := 1,
    smoothRange := (3 : ℚ) / 10,
    optimBoneEuler := [v3zero],
    eulerAngleHistory := [], locationHistory := [], alignScale := 0 }

/-- `sBase` with a nonzero lower joint bound, so the barrier term is
nonzero. -/
def sBarrier : SkeletonIKSolver :=
  { sBase with jointConstraintsMin := [fun _ => 1] }

/-- `sBase` after one recorded frame at time 0. -/
def sHist1 : SkeletonIKSolver :=
  { sBase with
    eulerAngleHistory := [([v3zero], 0)],
    locationHistory := [(v3zero, 0)] }

/-- Witness for C3 at a fully-occluded concrete frame. -/
theorem fit_all_invalid_keeps_angles_witness :
    (∀ b ∈ [false, false, false, false], b = false) ∧
    (SkeletonIKSolver.fit extC sBase [v3zero, v3zero, v3zero, v3zero]
      [false, false, false, false] 0).optimBoneEuler = sBase.optimBoneEuler :=
  ⟨by decide,
   fit_all_invalid_keeps_angles extC sBase [v3zero, v3zero, v3zero, v3zero]
     [false, false, false, false] 0 (by decide)⟩

/-- C4 (amended): the per-frame scale is the mean over ALL scale
correspondence pairs — the source applies no validity filtering to them —
of observed pairwise distance over rest bone-pair length; the persisted
estimate is updated, and the observed direction vectors divided by it,
exactly when this mean is positive. -/
theorem fit_scale_spec (ext : ExternalFns) (s : SkeletonIKSolver) (kpts : List Vec3)
    (valid : List Bool) (frameT : ℚ) :
    fitAlignScale ext s kpts =
      listMean (List.zipWith (fun a b => a / b)
        (s.alignScalePairsKpt.map
          (fun ab => ext.norm3 (kpts.getD ab.1 v3zero - kpts.getD ab.2 v3zero)))
        s.alignScalePairsLength) ∧
    (0 < fitAlignScale ext s kpts →
      (SkeletonIKSolver.fit ext s kpts valid frameT).alignScale = fitAlignScale ext s kpts ∧
      fitKptDir ext s kpts valid =
        (fitKptDirRaw s kpts valid).map (fun v => fun i => v i / fitAlignScale ext s kpts)) ∧
    (¬ 0 < fitAlignScale ext s kpts →
      (SkeletonIKSolver.fit ext s kpts valid frameT).alignScale = s.alignScale ∧
      fitKptDir ext s kpts valid = fitKptDirRaw s kpts valid) := by
  refine ⟨rfl, fun h => ⟨?_, ?_⟩, fun h => ⟨?_, ?_⟩⟩
  · show (if 0 < fitAlignScale ext s kpts then fitAlignScale ext s kpts
      else s.alignScale) = fitAlignScale ext s kpts
    rw [if_pos h]
  · rw [fitKptDir, if_pos h]
  · show (if 0 < fitAlignScale ext s kpts then fitAlignScale ext s kpts
      else s.alignScale) = s.alignScale
    rw [if_neg h]
  · rw [fitKptDir, if_neg h]

/-- Witness for the amended C4 at a concrete frame with positive scale. -/
theorem fit_scale_spec_witness :
    (0 < fitAlignScale extC sBase [![1, 0, 0], v3zero, ![3, 0, 0], v3zero]) ∧
    (SkeletonIKSolver.fit extC sBase [![1, 0, 0], v3zero, ![3, 0, 0], v3zero]
        [true, true, false, false] 0).alignScale =
      fitAlignScale extC sBase [![1, 0, 0], v3zero, ![3, 0, 0], v3zero] :=
  ⟨by norm_num [fitAlignScale, listMean, extC, sBase, v3zero, List.getD],
   ((fit_scale_spec extC sBase [![1, 0, 0], v3zero, ![3, 0, 0], v3zero]
     [true, true, false, false] 0).2.1
       (by norm_num [fitAlignScale, listMean, extC, sBase, v3zero, List.getD])).1⟩

/-- C4 counterexample: keypoints 2 and 3 are invalid, so the claim's
validity-filtered mean over scale pairs is 1, but `fit` persists the
unfiltered mean (1/1 + 3/1)/2 = 2. -/
theorem fit_scale_claim_counterexample :
    (SkeletonIKSolver.fit extC sBase [![1, 0, 0], v3zero, ![3, 0, 0], v3zero]
        [true, true, false, false] 0).alignScale = 2 ∧
    listMean [extC.norm3 (![1, 0, 0] - v3zero) / (1 : ℚ)] = 1 ∧
    (2 : ℚ) ≠ 1 :=
  ⟨by norm_num [SkeletonIKSolver.fit, fitAlignScale, listMean, extC, sBase, v3zero,
      List.getD],
   by norm_num [listMean, extC, v3zero, Matrix.vecHead, Matrix.vecTail],
   by norm_num⟩

/-- C5 (amended): with a non-empty filtered direction-pair set the
optimizer is invoked on `_loss_closure`, whose value at any angle vector is
the weighted sum of (1) the MSE between the rescaled observed directions
and the model joint-pair directions from the forward pass over the
remapped basis matrices, (2) the barrier term
`exp(4(angle-max)) + exp(4(min-angle))` AVERAGED (not summed) over the
constrained DOFs, and (3) the mean of the squared raw angle entries. -/
theorem fit_objective_spec (ext : ExternalFns) (s : SkeletonIKSolver)
    (kpts : List Vec3) (valid : List Bool)
    (hne : 0 < (fitKptDir ext s kpts valid).length) (euler : List Vec3) :
    fitEuler ext s kpts valid =
      ext.optimStep
        (lossClosure ext s ((fitJointPairs s valid).map Prod.fst)
          ((fitJointPairs s valid).map Prod.snd) (fitKptDir ext s kpts valid))
        s.optimBoneEuler ∧
    lossClosure ext s ((fitJointPairs s valid).map Prod.fst)
        ((fitJointPairs s valid).map Prod.snd) (fitKptDir ext s kpts valid) euler =
      mseLoss (fitKptDir ext s kpts valid)
        ((List.zip ((fitJointPairs s valid).map Prod.fst)
            ((fitJointPairs s valid).map Prod.snd)).map
          (fun ab =>
            ((eval_matrix_world_py s.boneParentsId s.boneMatrix
              (gatherBasis s.gatherId (euler.map ext.eulerToMatrix))).map
                translationOf).getD ab.1 v3zero -
            ((eval_matrix_world_py s.boneParentsId s.boneMatrix
              (gatherBasis s.gatherId (euler.map ext.eulerToMatrix))).map
                translationOf).getD ab.2 v3zero)) +
      s.poseRegLossWeight * vec3ListMean (euler.map (fun v => fun i => (v i) ^ 2)) +
      s.jointConstraintLossWeight * vec3ListMean
        ((List.zip (s.jointConstraintId.map (fun j => euler.getD j v3zero))
            (List.zip s.jointConstraintsMin s.jointConstraintsMax)).map
          (fun t => fun i : Fin 3 => barrier ext (t.1 i) (t.2.1 i) (t.2.2 i))) := by
  constructor
  · rw [fitEuler, if_pos hne]
  · rfl

/-- Witness for the amended C5 at a concrete frame with one valid pair. -/
theorem fit_objective_spec_witness :
    (0 < (fitKptDir extC sBase [![1, 0, 0], v3zero, ![3, 0, 0], v3zero]
      [true, true, false, false]).length) ∧
    fitEuler extC sBase [![1, 0, 0], v3zero, ![3, 0, 0], v3zero]
        [true, true, false, false] =
      extC.optimStep
        (lossClosure extC sBase
          ((fitJointPairs sBase [true, true, false, false]).map Prod.fst)
          ((fitJointPairs sBase [true, true, false, false]).map Prod.snd)
          (fitKptDir extC sBase [![1, 0, 0], v3zero, ![3, 0, 0], v3zero]
            [true, true, false, false]))
        sBase.optimBoneEuler :=
  ⟨by norm_num [fitKptDir, fitKptDirRaw, fitKptPairs, fitPairValid, fitAlignScale,
      listMean, extC, sBase, v3zero, List.getD, List.filterMap_cons, List.filterMap_nil],
   (fit_objective_spec extC sBase [![1, 0, 0], v3zero, ![3, 0, 0], v3zero]
     [true, true, false, false]
     (by norm_num [fitKptDir, fitKptDirRaw, fitKptPairs, fitPairValid, fitAlignScale,
       listMean, extC, sBase, v3zero, List.getD, List.filterMap_cons,
       List.filterMap_nil]) []).1⟩

/-- C5 counterexample: at a concrete state the implemented objective
averages the barrier term over the constrained DOFs (value 4) where the
claim's wording sums it (value 12). -/
theorem fit_objective_claim_counterexample :
    lossClosure extC sBarrier [] [] [] [v3zero] = 4 ∧
    lossClosureClaimBarrierSummed extC sBarrier [] [] [] [v3zero] = 12 ∧
    lossClosure extC sBarrier [] [] [] [v3zero] ≠
      lossClosureClaimBarrierSummed extC sBarrier [] [] [] [v3zero] := by
  refine ⟨?_, ?_, ?_⟩
  · norm_num [lossClosure, mseLoss, vec3ListMean, barrier, extC, sBarrier, sBase,
      v3zero, List.getD]
  · norm_num [lossClosureClaimBarrierSummed, mseLoss, vec3ListMean, barrier, extC,
      sBarrier, sBase, v3zero, List.getD]
  · norm_num [lossClosure, lossClosureClaimBarrierSummed, mseLoss, vec3ListMean,
      barrier, extC, sBarrier, sBase, v3zero, List.getD]

/-- C9 (amended): `fit` performs no boundary length validation; a call
whose array lengths differ from the configured keypoint-layout length is
not rejected — the frame is processed and one sample is appended to each
history. -/
theorem fit_no_length_check (ext : ExternalFns) (s : SkeletonIKSolver)
    (kpts : List Vec3) (valid : List Bool) (frameT : ℚ)
    (_hmis : kpts.length ≠ s.numKeypoints ∨ valid.length ≠ s.numKeypoints) :
    (SkeletonIKSolver.fit ext s kpts valid frameT).eulerAngleHistory =
      s.eulerAngleHistory ++ [(fitEuler ext s kpts valid, frameT)] ∧
    (SkeletonIKSolver.fit ext s kpts valid frameT).locationHistory =
      s.locationHistory ++ [(fitLocation ext s kpts valid, frameT)] :=
  ⟨rfl, rfl⟩

/-- Witness for the amended C9 with a 5-element array against a 4-keypoint
layout. -/
theorem fit_no_length_check_witness :
    (([v3zero, v3zero, v3zero, v3zero, v3zero] : List Vec3).length ≠ sBase.numKeypoints ∨
      ([true, true, true, true, true] : List Bool).length ≠ sBase.numKeypoints) ∧
    (SkeletonIKSolver.fit extC sBase [v3zero, v3zero, v3zero, v3zero, v3zero]
        [true, true, true, true, true] 0).eulerAngleHistory =
      sBase.eulerAngleHistory ++
        [(fitEuler extC sBase [v3zero, v3zero, v3zero, v3zero, v3zero]
          [true, true, true, true, true], 0)] :=
  ⟨by decide,
   (fit_no_length_check extC sBase [v3zero, v3zero, v3zero, v3zero, v3zero]
     [true, true, true, true, true] 0 (by decide)).1⟩

/-- C9 counterexample: a `fit` call with mismatched array lengths is not
rejected — it runs to completion and mutates the solver state (the Euler
history grows). -/
theorem fit_length_mismatch_counterexample :
    (([v3zero, v3zero, v3zero, v3zero, v3zero] : List Vec3).length ≠ sBase.numKeypoints) ∧
    (SkeletonIKSolver.fit extC sBase [v3zero, v3zero, v3zero, v3zero, v3zero]
      [true, true, true, true, true] 0).eulerAngleHistory ≠ sBase.eulerAngleHistory := by
  refine ⟨by decide, fun h => ?_⟩
  have h1 : (SkeletonIKSolver.fit extC sBase [v3zero, v3zero, v3zero, v3zero, v3zero]
      [true, true, true, true, true] 0).eulerAngleHistory.length = 1 := rfl
  rw [h] at h1
  exact absurd h1 (by decide)

/-- C6 (amended): each smoothing accessor selects exactly the history
samples with timestamp strictly within the half-width window of `t`; a
NON-EMPTY selection of at most 2 samples returns the most recent selected
sample verbatim; a selection of more than 2 samples returns the
moving-least-squares regression over the selected samples evaluated at
`t`; an empty selection fails (the source's `zip(*…)` unpacking raises)
instead of returning a sample. -/
theorem smoothing_accessor_spec (ext : ExternalFns) (s : SkeletonIKSolver) (t : ℚ) :
    ((s.eulerAngleHistory.filter (fun et => |et.2 - t| < s.smoothRange)).length = 0 →
      s.getSmoothedBoneEuler ext t = none) ∧
    (0 < (s.eulerAngleHistory.filter (fun et => |et.2 - t| < s.smoothRange)).length →
      (s.eulerAngleHistory.filter (fun et => |et.2 - t| < s.smoothRange)).length ≤ 2 →
      s.getSmoothedBoneEuler ext t =
        ((s.eulerAngleHistory.filter
          (fun et => |et.2 - t| < s.smoothRange)).getLast?).map Prod.fst) ∧
    (2 < (s.eulerAngleHistory.filter (fun et => |et.2 - t| < s.smoothRange)).length →
      s.getSmoothedBoneEuler ext t =
        some (ext.mlsSmoothAngles
          ((s.eulerAngleHistory.filter (fun et => |et.2 - t| < s.smoothRange)).map Prod.snd)
          ((s.eulerAngleHistory.filter (fun et => |et.2 - t| < s.smoothRange)).map Prod.fst)
          t s.smoothRange)) ∧
    ((s.locationHistory.filter (fun et => |et.2 - t| < s.smoothRange)).length = 0 →
      s.getSmoothedLocation ext t = none) ∧
    (0 < (s.locationHistory.filter (fun et => |et.2 - t| < s.smoothRange)).length →
      (s.locationHistory.filter (fun et => |et.2 - t| < s.smoothRange)).length ≤ 2 →
      s.getSmoothedLocation ext t =
        ((s.locationHistory.filter
          (fun et => |et.2 - t| < s.smoothRange)).getLast?).map Prod.fst) ∧
    (2 < (s.locationHistory.filter (fun et => |et.2 - t| < s.smoothRange)).length →
      s.getSmoothedLocation ext t =
        some (ext.mlsSmoothLocation
          ((s.locationHistory.filter (fun et => |et.2 - t| < s.smoothRange)).map Prod.snd)
          ((s.locationHistory.filter (fun et => |et.2 - t| < s.smoothRange)).map Prod.fst)
          t s.smoothRange)) := by
  refine ⟨fun h0 => ?_, fun h1 h2 => ?_, fun h3 => ?_,
    fun h0 => ?_, fun h1 h2 => ?_, fun h3 => ?_⟩
  · simp only [SkeletonIKSolver.getSmoothedBoneEuler]
    rw [if_pos h0]
  · simp only [SkeletonIKSolver.getSmoothedBoneEuler]
    rw [if_neg (by omega), if_pos h2]
  · simp only [SkeletonIKSolver.getSmoothedBoneEuler]
    rw [if_neg (by omega), if_neg (by omega)]
  · simp only [SkeletonIKSolver.getSmoothedLocation]
    rw [if_pos h0]
  · simp only [SkeletonIKSolver.getSmoothedLocation]
    rw [if_neg (by omega), if_pos h2]
  · simp only [SkeletonIKSolver.getSmoothedLocation]
    rw [if_neg (by omega), if_neg (by omega)]

/-- `sBase` after three recorded frames inside one smoothing window. -/
def sHist3 : SkeletonIKSolver :=
  { sBase with
    eulerAngleHistory := [([v3zero], 0), ([v3zero], 1 / 10), ([v3zero], 1 / 5)],
    locationHistory := [(v3zero, 0), (v3zero, 1 / 10), (v3zero, 1 / 5)] }

/-- Witness for the amended C6: three samples in the window, the accessor
returns the MLS regression over them. -/
theorem smoothing_accessor_spec_witness :
    (2 < (sHist3.eulerAngleHistory.filter
      (fun et => |et.2 - (1 / 10 : ℚ)| < sHist3.smoothRange)).length) ∧
    sHist3.getSmoothedBoneEuler extC (1 / 10) =
      some (extC.mlsSmoothAngles
        ((sHist3.eulerAngleHistory.filter
          (fun et => |et.2 - (1 / 10 : ℚ)| < sHist3.smoothRange)).map Prod.snd)
        ((sHist3.eulerAngleHistory.filter
          (fun et => |et.2 - (1 / 10 : ℚ)| < sHist3.smoothRange)).map Prod.fst)
        (1 / 10) sHist3.smoothRange) :=
  ⟨by norm_num [sHist3, sBase, List.filter_cons, List.filter_nil, decide_eq_true_eq, abs_neg, abs_of_nonneg],
   (smoothing_accessor_spec extC sHist3 (1 / 10)).2.2.1
     (by norm_num [sHist3, sBase, List.filter_cons, List.filter_nil, decide_eq_true_eq, abs_neg, abs_of_nonneg])⟩

/-- C6 counterexample: a query far outside the window of a one-sample
history has an empty selection (hence "at most 2 samples"), yet the
accessor fails instead of returning the most recent selected sample. -/
theorem smoothing_empty_selection_counterexample :
    sHist1.eulerAngleHistory ≠ [] ∧
    ((sHist1.eulerAngleHistory.filter
      (fun et => |et.2 - (10 : ℚ)| < sHist1.smoothRange)).length ≤ 2) ∧
    sHist1.getSmoothedBoneEuler extC 10 = none := by
  refine ⟨by decide, ?_, ?_⟩
  · norm_num [sHist1, sBase, List.filter_cons, List.filter_nil, decide_eq_true_eq, abs_neg, abs_of_nonneg]
  · rw [SkeletonIKSolver.getSmoothedBoneEuler]
    norm_num [sHist1, sBase, List.filter_cons, List.filter_nil, decide_eq_true_eq, abs_neg, abs_of_nonneg]

/-- C7: on a solver whose histories are empty (no `fit` was ever run) every
smoothing query fails rather than returning a value. -/
theorem smoothing_empty_history_fails (ext : ExternalFns) (s : SkeletonIKSolver) (t : ℚ)
    (he : s.eulerAngleHistory = []) (hl : s.locationHistory = []) :
    s.getSmoothedBoneEuler ext t = none ∧ s.getSmoothedLocation ext t = none := by
  constructor
  · simp only [SkeletonIKSolver.getSmoothedBoneEuler, he]
    rfl
  · simp only [SkeletonIKSolver.getSmoothedLocation, hl]
    rfl

/-- Witness for C7 on the freshly constructed solver. -/
theorem smoothing_empty_history_fails_witness :
    (sBase.eulerAngleHistory = [] ∧ sBase.locationHistory = []) ∧
    (sBase.getSmoothedBoneEuler extC 0 = none ∧ sBase.getSmoothedLocation extC 0 = none) :=
  ⟨⟨rfl, rfl⟩, smoothing_empty_history_fails extC sBase 0 rfl rfl⟩

/-- C10: a solver with a non-empty location history, queried at a time
where no history sample falls inside the window, fails (no value) instead
of returning the most recent sample. -/
theorem smoothing_out_of_window_error :
    sHist1.locationHistory ≠ [] ∧
    (∀ p ∈ sHist1.locationHistory, ¬ |p.2 - (99 : ℚ)| < sHist1.smoothRange) ∧
    sHist1.getSmoothedLocation extC 99 = none := by
  refine ⟨by decide, ?_, ?_⟩
  · intro p hp
    have : p = (v3zero, 0) := by
      simpa [sHist1, sBase] using hp
    rw [this]
    norm_num [sHist1, sBase]
  · rw [SkeletonIKSolver.getSmoothedLocation]
    norm_num [sHist1, sBase, List.filter_cons, List.filter_nil, decide_eq_true_eq, abs_neg, abs_of_nonneg]

/-- C8 (amended): `eval_bone_matrix_world` runs the full-skeleton forward
pass with the angles mapped through the remap table, multiplies every
entry of the first three ROWS — the rotation block included, not only the
translation — by `scale`, and then adds `location` to the translation
column; the solver state is only read, never written. -/
theorem eval_bone_matrix_world_spec (ext : ExternalFns) (s : SkeletonIKSolver)
    (boneEuler : List Vec3) (location : Vec3) (scale : ℚ) (k : Nat)
    (hk : k < s.allBoneMatrix.length) (i j : Fin 4) :
    ((s.evalBoneMatrixWorld ext boneEuler location scale).getD k 1) i j =
      (if (i : Nat) < 3 then scale else 1) *
        ((eval_matrix_world_py s.allBoneParentsId s.allBoneMatrix
          (gatherBasis s.allGatherId (boneEuler.map ext.eulerToMatrix))).getD k 1) i j +
      (if j = (3 : Fin 4) then locExt location i else 0) := by
  have hlen : (eval_matrix_world_py s.allBoneParentsId s.allBoneMatrix
      (gatherBasis s.allGatherId (boneEuler.map ext.eulerToMatrix))).length =
      s.allBoneMatrix.length := by
    rw [eval_matrix_world_py, emwList_length]
  rw [SkeletonIKSolver.evalBoneMatrixWorld,
    List.getD_eq_getElem _ _ (by simpa [hlen] using hk),
    List.getElem_map, List.getElem_map,
    List.getD_eq_getElem _ _ (by simpa [hlen] using hk)]
  simp [addLocationCol, scaleRows]

/-- Witness for the amended C8 at the single-bone solver with one
optimizable angle row (so the gather index 1 is in range), entry (0, 3). -/
theorem eval_bone_matrix_world_spec_witness :
    (0 < sBase.allBoneMatrix.length) ∧
    ((sBase.evalBoneMatrixWorld extC [v3zero] (fun _ => 5) 2).getD 0 1) 0 3 =
      (if ((0 : Fin 4) : Nat) < 3 then (2 : ℚ) else 1) *
        ((eval_matrix_world_py sBase.allBoneParentsId sBase.allBoneMatrix
          (gatherBasis sBase.allGatherId ([v3zero].map extC.eulerToMatrix))).getD 0 1)
          0 3 +
      (if (3 : Fin 4) = (3 : Fin 4) then locExt (fun _ => 5) 0 else 0) :=
  ⟨by decide,
   eval_bone_matrix_world_spec extC sBase [v3zero] (fun _ => 5) 2 0 (by decide) 0 3⟩

/-- C8 counterexample: with one optimizable angle row (the gather index 1
is in range of the size-2 basis stack) and `scale = 2`, the (0,0) rotation
entry of the result is 2 while the unscaled forward-pass rotation entry is
1 — the scaling hits the whole upper three rows, not only the
translation. -/
theorem eval_bone_matrix_world_scales_rotation :
    ((sBase.evalBoneMatrixWorld extC [v3zero] v3zero 2).getD 0 1) 0 0 = 2 ∧
    ((eval_matrix_world_py sBase.allBoneParentsId sBase.allBoneMatrix
      (gatherBasis sBase.allGatherId ([v3zero].map extC.eulerToMatrix))).getD 0 1)
      0 0 = 1 ∧
    (2 : ℚ) ≠ 1 := by
  refine ⟨?_, ?_, by norm_num⟩
  · norm_num [SkeletonIKSolver.evalBoneMatrixWorld, eval_matrix_world_py, emwList,
      gatherBasis, extC, sBase, List.getD, addLocationCol, scaleRows, locExt, v3zero,
      Matrix.one_apply]
  · norm_num [eval_matrix_world_py, emwList, gatherBasis, extC, sBase, List.getD,
      Matrix.one_apply]
